import Mathlib

/-!
Verification of the pagination + query-translation engine of the
rocketlane-sdk repository, shallowly embedded in Lean 4.

The embedding covers:
* `QueryBuilder` condition accumulation and `build()` translation to the
  flat API-parameter map (`src/utils/query-builder.ts`);
* the SQL template helper `sql`, the pattern-matching parser
  `parseSQLQuery`, and `BaseResource.convertSQLToAPIParams`
  (`src/utils/query-builder.ts`, `src/utils/export-import.ts`);
* the pagination helpers `getAllPages`, `getNextPageInternal`,
  `iteratePages` / `iterateItems` (`src/utils/export-import.ts`);
* the GraphQL-style field-selection projector `selectFields` /
  `processFieldSelection` (`src/utils/query-builder.ts`).

JavaScript dynamic values are modelled by the inductive `Value`, plain JS
objects (`Record<string, any>`) by association lists with JS assignment
semantics (update-in-place on an existing key, append otherwise), and JS
string operations (`toUpperCase`, `includes`, `split`, regex matching)
by executable functions over `List Char` mirroring the exact regexes the
source uses.  Async generators are embedded as fuel-indexed pure
functions; promises disappear (all modelled code is sequential and
deterministic).
-/

namespace Rocketlane

/-- A JavaScript runtime value, as far as the SDK's query layer uses them. -/
inductive Value where
  | vUndefined : Value
  | vNull : Value
  | vBool : Bool → Value
  | vNum : Int → Value
  | vStr : String → Value
  | vList : List Value → Value

/-- A plain JS object used as a parameter map: association list of
string keys to values, unique keys, insertion-ordered. -/
abbrev Obj := List (String × Value)

/-- JS property write `m[k] = v` on a record: overwrite in place when the
key exists, append otherwise (insertion order preserved). -/
def objSet {V : Type} (m : List (String × V)) (k : String) (v : V) :
    List (String × V) :=
  if m.any (fun p => p.1 == k) then
    m.map (fun p => if p.1 == k then (k, v) else p)
  else
    m ++ [(k, v)]

/-- JS property read `m[k]` on a record, `none` when the key is absent. -/
def objGet {V : Type} (m : List (String × V)) (k : String) : Option V :=
  (m.find? (fun p => p.1 == k)).map (fun p => p.2)

/-- JS `String.prototype.toUpperCase` restricted to ASCII (all strings in
the query layer are ASCII). -/
def jsUpper (s : String) : String := String.mk (s.data.map Char.toUpper)

/-- JS `String.prototype.toLowerCase` restricted to ASCII. -/
def jsLower (s : String) : String := String.mk (s.data.map Char.toLower)

/-! ## QueryBuilder (`src/utils/query-builder.ts`) -/

/-- Model of `QueryCondition` from `query-builder.ts`: the operator is kept as a
string exactly as the source stores it (the union type
`ComparisonOperator`). `value2` is optional (`value2?: any`). -/
structure QueryCondition where
  field : String
  op : String
  value : Value
  value2 : Option Value

/-- Model of `QueryOptions` from `query-builder.ts` (the `select` directive is not
part of the flat-parameter translation and is modelled separately by the
field-selection projector). -/
structure QueryOptions where
  limit : Option Int := none
  offset : Option Int := none
  orderBy : List (String × String) := []
  groupBy : List String := []

/-- The mutable state of a `QueryBuilder`. -/
structure QueryBuilder where
  tableName : String
  conditions : List QueryCondition := []
  options : QueryOptions := {}

/-- Model of `new QueryBuilder(tableName)`. -/
def QueryBuilder.create (tableName : String) : QueryBuilder :=
  { tableName := tableName }

/-- Model of `where(field, operator, value, value2?)`: pushes a condition. -/
def QueryBuilder.whereCond (b : QueryBuilder) (field op : String)
    (value : Value) (value2 : Option Value := none) : QueryBuilder :=
  { b with conditions := b.conditions ++ [⟨field, op, value, value2⟩] }

/-- Model of `whereEquals(field, value)`. -/
def QueryBuilder.whereEquals (b : QueryBuilder) (field : String) (value : Value) :
    QueryBuilder :=
  b.whereCond field "=" value

/-- Model of `whereBetween(field, value1, value2)`. -/
def QueryBuilder.whereBetween (b : QueryBuilder) (field : String)
    (value1 value2 : Value) : QueryBuilder :=
  b.whereCond field "BETWEEN" value1 (some value2)

/-- Model of `whereContains(field, value)`. -/
def QueryBuilder.whereContains (b : QueryBuilder) (field : String) (value : Value) :
    QueryBuilder :=
  b.whereCond field "CONTAINS" value

/-- Model of `whereNotContains(field, value)`. -/
def QueryBuilder.whereNotContains (b : QueryBuilder) (field : String) (value : Value) :
    QueryBuilder :=
  b.whereCond field "NOT CONTAINS" value

/-- Model of `orderBy(field, direction = 'asc')`: appends to the ordering list,
lowercasing the direction (as the source does on push). -/
def QueryBuilder.orderByM (b : QueryBuilder) (field : String)
    (direction : String := "asc") : QueryBuilder :=
  { b with options :=
      { b.options with orderBy := b.options.orderBy ++ [(field, jsLower direction)] } }

/-- Model of `limit(count)`. -/
def QueryBuilder.limitM (b : QueryBuilder) (count : Int) : QueryBuilder :=
  { b with options := { b.options with limit := some count } }

/-- The `switch (condition.operator.toUpperCase())` body inside
`QueryBuilder.build()`: translates one condition into writes on the flat
parameter map.  Operators with no `case` (e.g. `NOT CONTAINS`) fall
through the switch and leave the map unchanged. -/
def applyCondition (params : Obj) (c : QueryCondition) : Obj :=
  match jsUpper c.op with
  | "=" => objSet params c.field c.value
  | "!=" => objSet params (c.field ++ "_ne") c.value
  | "<>" => objSet params (c.field ++ "_ne") c.value
  | ">" => objSet params (c.field ++ "_gt") c.value
  | "<" => objSet params (c.field ++ "_lt") c.value
  | ">=" => objSet params (c.field ++ "_gte") c.value
  | "<=" => objSet params (c.field ++ "_lte") c.value
  | "LIKE" => objSet params (c.field ++ "_like") c.value
  | "IN" => objSet params (c.field ++ "_in") c.value
  | "NOT IN" => objSet params (c.field ++ "_nin") c.value
  | "CONTAINS" => objSet params (c.field ++ "_contains") c.value
  | "BETWEEN" =>
      objSet (objSet params (c.field ++ "_gte") c.value)
        (c.field ++ "_lte") (c.value2.getD Value.vUndefined)
  | "NOT BETWEEN" =>
      objSet (objSet params (c.field ++ "_lt") c.value)
        (c.field ++ "_gt") (c.value2.getD Value.vUndefined)
  | _ => params

/-- Model of `QueryBuilder.build()`: fold the conditions into the flat map, then
add `sortBy`/`sortOrder` from the *first* ordering entry, then
`pageSize`/`offset` from truthy limit/offset. -/
def QueryBuilder.build (b : QueryBuilder) : Obj :=
  let params := b.conditions.foldl applyCondition []
  let params :=
    match b.options.orderBy with
    | [] => params
    | (f, d) :: _ => objSet (objSet params "sortBy" (Value.vStr f)) "sortOrder" (Value.vStr d)
  let params :=
    match b.options.limit with
    | some l => if l ≠ 0 then objSet params "pageSize" (Value.vNum l) else params
    | none => params
  match b.options.offset with
  | some o => if o ≠ 0 then objSet params "offset" (Value.vNum o) else params
  | none => params

mutual

/-- JS `String(value)` at top level (Date values do not occur in the
modelled layer). -/
def jsString : Value → String
  | Value.vStr s => s
  | Value.vNum n => toString n
  | Value.vBool b => if b then "true" else "false"
  | Value.vNull => "null"
  | Value.vUndefined => "undefined"
  | Value.vList vs => String.intercalate "," (jsStringList vs)

/-- Elements of an array under JS `Array.prototype.toString`: `null` and
`undefined` render as the empty string. -/
def jsStringList : List Value → List String
  | [] => []
  | Value.vNull :: vs => "" :: jsStringList vs
  | Value.vUndefined :: vs => "" :: jsStringList vs
  | v :: vs => jsString v :: jsStringList vs

end

/-- Model of `formatValue(value)` from `query-builder.ts`: strings quoted,
everything else via `String(value)`. -/
def formatValue : Value → String
  | Value.vStr s => "'" ++ s ++ "'"
  | v => jsString v

/-- Model of `conditionToSQL(condition)` from `query-builder.ts`. -/
def conditionToSQL (c : QueryCondition) : String :=
  match jsUpper c.op with
  | "BETWEEN" =>
      c.field ++ " BETWEEN " ++ formatValue c.value ++ " AND " ++
        formatValue (c.value2.getD Value.vUndefined)
  | "NOT BETWEEN" =>
      c.field ++ " NOT BETWEEN " ++ formatValue c.value ++ " AND " ++
        formatValue (c.value2.getD Value.vUndefined)
  | "IN" =>
      c.field ++ " IN (" ++
        (match c.value with
         | Value.vList vs => String.intercalate ", " (vs.map formatValue)
         | v => formatValue v) ++ ")"
  | "NOT IN" =>
      c.field ++ " NOT IN (" ++
        (match c.value with
         | Value.vList vs => String.intercalate ", " (vs.map formatValue)
         | v => formatValue v) ++ ")"
  | "CONTAINS" => c.field ++ " CONTAINS " ++ formatValue c.value
  | "NOT CONTAINS" => c.field ++ " NOT CONTAINS " ++ formatValue c.value
  | _ => c.field ++ " " ++ c.op ++ " " ++ formatValue c.value

/-! ## Pagination engine (`src/utils/export-import.ts`, `BaseResource`) -/

/-- The `pagination` component of a `BasePaginatedResponse`. -/
structure Pagination where
  hasMore : Bool
  nextPageToken : Option String

/-- Model of `BasePaginatedResponse<T>`: one page of results. -/
structure Page (T : Type) where
  data : List T
  pagination : Pagination

/-- JS truthiness of the `nextPageToken` field (`undefined`, `null` and
the empty string are falsy). -/
def tokenPresent : Option String → Bool
  | none => false
  | some s => !(s == "")

/-- The page a fetch primitive (`listMethod` with `pageToken` spread into
the original params) returns for a given `pageToken`; `none` is the
initial call without a token. -/
abbrev Fetch (T : Type) := Option String → Page T

/-- Loop condition of the pagination helpers: the source continues exactly
when `pagination.hasMore` and `pagination.nextPageToken` are both truthy. -/
def wantsMore (p : Page T) : Bool :=
  p.pagination.hasMore && tokenPresent p.pagination.nextPageToken

/-- The chain of pages obtained by starting at token `tok` and always
following `nextPageToken`, cut to `n` pages. -/
def pageTrace (fetch : Fetch T) : Nat → Option String → List (Page T)
  | 0, _ => []
  | n + 1, tok =>
    let r := fetch tok
    r :: pageTrace fetch n r.pagination.nextPageToken

/-- The `do … while(true)` loop body of `BaseResource.getAllPages`:
`pageCount` and the current token are the loop state; the cap check
happens before the fetch, exactly as in the source. -/
def getAllPagesGo (fetch : Fetch T) (maxPages : Nat) (pageCount : Nat)
    (tok : Option String) : List T :=
  if _h : maxPages ≤ pageCount then []
  else
    let r := fetch tok
    if wantsMore r then
      r.data ++ getAllPagesGo fetch maxPages (pageCount + 1) r.pagination.nextPageToken
    else
      r.data
termination_by maxPages - pageCount
decreasing_by simp_wf; omega

/-- Model of `BaseResource.getAllPages(params, listMethod, maxPages = 50)`. -/
def getAllPages (fetch : Fetch T) (maxPages : Nat := 50) : List T :=
  getAllPagesGo fetch maxPages 0 none

/-- Number of times `getAllPages` invokes the fetch primitive (same loop
structure as `getAllPagesGo`, counting calls to `listMethod`). -/
def getAllPagesCalls (fetch : Fetch T) (maxPages : Nat) (pageCount : Nat)
    (tok : Option String) : Nat :=
  if _h : maxPages ≤ pageCount then 0
  else
    let r := fetch tok
    if wantsMore r then
      1 + getAllPagesCalls fetch maxPages (pageCount + 1) r.pagination.nextPageToken
    else
      1
termination_by maxPages - pageCount
decreasing_by simp_wf; omega

/-- Model of `BaseResource.getNextPageInternal(response, originalParams, listMethod)`:
returns `null` when the current page is exhausted, otherwise fetches the
next page with the token spread into the params. -/
def getNextPageInternal (page : Page T) (fetch : Fetch T) : Option (Page T) :=
  if !page.pagination.hasMore || !tokenPresent page.pagination.nextPageToken then
    none
  else
    some (fetch page.pagination.nextPageToken)

/-- The `getNextPage` closure installed by `BaseResource.enhanceResponse`:
identical guard; the recursive re-enhancement adds only methods, so the
data content is the fetched page. -/
def getNextPage (page : Page T) (fetch : Fetch T) : Option (Page T) :=
  if !page.pagination.hasMore || !tokenPresent page.pagination.nextPageToken then
    none
  else
    some (fetch page.pagination.nextPageToken)

/-- Number of fetch-primitive invocations a `getNextPageInternal` /
`getNextPage` call performs. -/
def getNextPageFetchCount (page : Page T) : Nat :=
  if !page.pagination.hasMore || !tokenPresent page.pagination.nextPageToken then 0
  else 1

/-- Model of `BaseResource.iteratePages(params, listMethod)`: the async generator,
embedded with a fuel bound on the number of yielded pages.  Each round
fetches, yields the page, and stops unless `hasMore` and a truthy token
say to continue — the yield happens before the break test, as in the
source. -/
def iteratePagesGo (fetch : Fetch T) : Nat → Option String → List (Page T)
  | 0, _ => []
  | fuel + 1, tok =>
    let r := fetch tok
    if wantsMore r then
      r :: iteratePagesGo fetch fuel r.pagination.nextPageToken
    else
      [r]

/-- Model of `BaseResource.iterateItems(params, listMethod)`: flattens
`iteratePages` page by page, item by item. -/
def iterateItems (fetch : Fetch T) (fuel : Nat) : List T :=
  ((iteratePagesGo fetch fuel none).map Page.data).flatten

/-! ## SQL template helper and parser (`src/utils/query-builder.ts`)

The source extracts table name, WHERE text, ORDER BY text and LIMIT with
the four JavaScript regexes

* `/FROM\s+(\w+)/`
* `/WHERE\s+(.+?)(?:\s+ORDER\s+BY|\s+GROUP\s+BY|\s+LIMIT|$)/`
* `/ORDER\s+BY\s+(.+?)(?:\s+LIMIT|$)/`
* `/LIMIT\s+(\d+)/`

applied to the uppercased query.  They are embedded below as executable
leftmost-match functions over `List Char`, with JS semantics: `\s` is
whitespace, `\w` is `[A-Za-z0-9_]`, `.` matches anything but a line
terminator, `+?` is lazy (shortest nonempty match), `\s+` before a lazy
group is greedy with backtracking. -/

/-- JS `\s` whitespace class (ASCII part; the query layer is ASCII). -/
def isSpaceJS (c : Char) : Bool :=
  c == ' ' || c == '\t' || c == '\n' || c == '\r' || c == '\x0b' || c == '\x0c'

/-- JS `\w` word-character class. -/
def isWordChar (c : Char) : Bool :=
  c.isAlpha || c.isDigit || c == '_'

/-- JS regex `.` (no `s` flag): any character except a line terminator. -/
def isDotChar (c : Char) : Bool :=
  !(c == '\n' || c == '\r')

/-- Consume an exact literal; `none` when the input does not start with it. -/
def dropLit : List Char → List Char → Option (List Char)
  | [], cs => some cs
  | _ :: _, [] => none
  | l :: ls, c :: cs => if c == l then dropLit ls cs else none

/-- Match `\s+` followed by a literal keyword; returns the remainder after
the keyword.  (The keyword starts with a non-space character, so the
greedy `\s+` necessarily consumes the whole space run.) -/
def spacesThenLit (kw : List Char) (cs : List Char) : Option (List Char) :=
  match cs with
  | [] => none
  | c :: _ =>
    if isSpaceJS c then dropLit kw (cs.dropWhile isSpaceJS) else none

/-- The tail `(?:\s+ORDER\s+BY|\s+GROUP\s+BY|\s+LIMIT|$)` of the WHERE
regex, as a predicate on the remaining input. -/
def whereTailMatch (cs : List Char) : Bool :=
  (match spacesThenLit "ORDER".data cs with
   | some r => (spacesThenLit "BY".data r).isSome
   | none => false) ||
  (match spacesThenLit "GROUP".data cs with
   | some r => (spacesThenLit "BY".data r).isSome
   | none => false) ||
  (spacesThenLit "LIMIT".data cs).isSome ||
  cs.isEmpty

/-- The tail `(?:\s+LIMIT|$)` of the ORDER BY regex. -/
def orderTailMatch (cs : List Char) : Bool :=
  (spacesThenLit "LIMIT".data cs).isSome || cs.isEmpty

/-- Lazy `(.+?)` followed by a tail: the shortest nonempty prefix of
line-terminator-free characters after which the tail matches. -/
def lazyCapture (tail : List Char → Bool) : List Char → Option (List Char)
  | [] => none
  | c :: rest =>
    if !isDotChar c then none
    else if tail rest then some [c]
    else
      match lazyCapture tail rest with
      | some p => some (c :: p)
      | none => none

/-- Greedy `\s+` (with backtracking from `j` spaces down to one) followed
by a lazy capture: tries the longest space run first, exactly as the JS
engine does. -/
def backtrackSpaces (tail : List Char → Bool) (cs : List Char) :
    Nat → Option (List Char)
  | 0 => none
  | j + 1 =>
    match lazyCapture tail (cs.drop (j + 1)) with
    | some p => some p
    | none => backtrackSpaces tail cs j

/-- Model of `\s+(.+?)tail` at the current position: the backtracking
starts from the full space run (greedy) and shrinks. -/
def spacesThenLazy (tail : List Char → Bool) (cs : List Char) :
    Option (List Char) :=
  let run := (cs.takeWhile isSpaceJS).length
  if run == 0 then none
  else backtrackSpaces tail cs run

/-- Model of `/FROM\s+(\w+)/` at the current position: the captured word. -/
def fromAt (cs : List Char) : Option (List Char) :=
  match dropLit "FROM".data cs with
  | none => none
  | some rest =>
    match rest with
    | [] => none
    | c :: _ =>
      if isSpaceJS c then
        let w := (rest.dropWhile isSpaceJS).takeWhile isWordChar
        if w.isEmpty then none else some w
      else none

/-- Model of `/WHERE\s+(.+?)(?:\s+ORDER\s+BY|\s+GROUP\s+BY|\s+LIMIT|$)/` at the
current position: the captured WHERE text. -/
def whereAt (cs : List Char) : Option (List Char) :=
  match dropLit "WHERE".data cs with
  | none => none
  | some rest => spacesThenLazy whereTailMatch rest

/-- Model of `/ORDER\s+BY\s+(.+?)(?:\s+LIMIT|$)/` at the current position. -/
def orderAt (cs : List Char) : Option (List Char) :=
  match dropLit "ORDER".data cs with
  | none => none
  | some r1 =>
    match spacesThenLit "BY".data r1 with
    | none => none
    | some r2 => spacesThenLazy orderTailMatch r2

/-- Model of `/LIMIT\s+(\d+)/` at the current position: the captured digit run. -/
def limitAt (cs : List Char) : Option (List Char) :=
  match dropLit "LIMIT".data cs with
  | none => none
  | some rest =>
    match rest with
    | [] => none
    | c :: _ =>
      if isSpaceJS c then
        let ds := (rest.dropWhile isSpaceJS).takeWhile Char.isDigit
        if ds.isEmpty then none else some ds
      else none

/-- Leftmost match: try a position matcher at every successive start. -/
def findMatch (p : List Char → Option (List Char)) : List Char → Option (List Char)
  | [] => p []
  | c :: cs =>
    match p (c :: cs) with
    | some r => some r
    | none => findMatch p cs

/-- Decimal digits to a number (`parseInt` on a `\d+` capture). -/
def digitsToNat (ds : List Char) : Nat :=
  ds.foldl (fun acc c => acc * 10 + (c.toNat - '0'.toNat)) 0

/-- JS `String.prototype.trim`. -/
def jsTrim (s : String) : String :=
  String.mk (((s.data.dropWhile isSpaceJS).reverse.dropWhile isSpaceJS).reverse)

/-- The result shape of `parseSQLQuery`: `{tableName, conditions: {raw,
params}, options: {orderBy, limit}}`. -/
structure ParsedSQL where
  tableName : String
  conditionsRaw : String
  condParams : List Value
  orderBy : String
  limit : Option Nat

/-- Model of `parseSQLQuery(query, params)` from `query-builder.ts`: uppercases the
query, then extracts the pieces with the four regexes.  A missing WHERE /
ORDER BY match yields the empty string, a missing FROM match the table
name `"unknown"`, a missing LIMIT match an undefined limit. -/
def parseSQLQuery (query : String) (params : List Value) : ParsedSQL :=
  let u := (jsUpper query).data
  { tableName :=
      match findMatch fromAt u with
      | some w => jsLower (String.mk w)
      | none => "unknown"
    conditionsRaw :=
      match findMatch whereAt u with
      | some p => String.mk p
      | none => ""
    condParams := params
    orderBy :=
      match findMatch orderAt u with
      | some p => String.mk p
      | none => ""
    limit := (findMatch limitAt u).map digitsToNat }

/-- The accumulation loop of the `sql` template tag: append each literal
chunk, and after chunk `i` (while values remain) append the placeholder
`$(k+1)` and record the value. -/
def sqlGo : List String → List Value → Nat → String × List Value
  | [], _, _ => ("", [])
  | s :: ss, [], k =>
    let r := sqlGo ss [] k
    (s ++ r.1, r.2)
  | s :: ss, v :: vs, k =>
    let r := sqlGo ss vs (k + 1)
    (s ++ "$" ++ toString (k + 1) ++ r.1, v :: r.2)

/-- Model of ``sql`…` `` from `query-builder.ts`: builds the query text with `$n`
placeholders and the positional parameter list; the query is trimmed. -/
def sqlTag (strings : List String) (values : List Value) : String × List Value :=
  let r := sqlGo strings values 0
  (jsTrim r.1, r.2)

/-! ## `BaseResource.convertSQLToAPIParams` (`src/utils/export-import.ts`) -/

/-- JS `String.prototype.includes` (substring test, case-sensitive). -/
def hasSub (hay needle : List Char) : Bool :=
  if needle.isPrefixOf hay then true
  else
    match hay with
    | [] => false
    | _ :: t => hasSub t needle

/-- JS `String.prototype.split(' ')`: split on every single space,
preserving empty chunks. -/
def splitSp : List Char → List (List Char)
  | [] => [[]]
  | c :: cs =>
    if c == ' ' then [] :: splitSp cs
    else
      match splitSp cs with
      | h :: t => (c :: h) :: t
      | [] => [[c]]

/-- JS array read `a[i]`: `undefined` past the end. -/
def listAt (l : List Value) (i : Nat) : Value := l.getD i Value.vUndefined

/-- Model of `BaseResource.convertSQLToAPIParams(parsed, sqlParams)`: case-sensitive
`includes` probes on the raw WHERE text for `projectId`, `status`,
`assignees` and `dueDate`+`BETWEEN`, consuming positional parameters with
a running `paramIndex`; then ORDER BY split into `sortBy`/`sortOrder`,
then a truthy LIMIT into `pageSize`. -/
def convertSQLToAPIParams (parsed : ParsedSQL) (sqlParams : List Value) : Obj :=
  let conditions := parsed.conditionsRaw.data
  let st : Obj × Nat := ([], 0)
  let st :=
    if hasSub conditions "projectId".data then
      (objSet st.1 "projectId" (listAt sqlParams st.2), st.2 + 1)
    else st
  let st :=
    if hasSub conditions "status".data then
      (objSet st.1 "status" (listAt sqlParams st.2), st.2 + 1)
    else st
  let st :=
    if hasSub conditions "assignees".data then
      (objSet st.1 "assigneeId" (listAt sqlParams st.2), st.2 + 1)
    else st
  let st :=
    if hasSub conditions "dueDate".data && hasSub conditions "BETWEEN".data then
      (objSet (objSet st.1 "dueDateFrom" (listAt sqlParams st.2))
        "dueDateTo" (listAt sqlParams (st.2 + 1)), st.2 + 2)
    else st
  let params := st.1
  let params :=
    if parsed.orderBy ≠ "" then
      let orderParts := splitSp parsed.orderBy.data
      let params := objSet params "sortBy" (Value.vStr (String.mk (orderParts.getD 0 [])))
      if (orderParts.getD 1 []).isEmpty then params
      else objSet params "sortOrder"
        (Value.vStr (jsLower (String.mk (orderParts.getD 1 []))))
    else params
  match parsed.limit with
  | some l => if l ≠ 0 then objSet params "pageSize" (Value.vNum l) else params
  | none => params

/-! ## Field-selection projector (`src/utils/query-builder.ts`)

`selectFields(item, selection)` walks the entries of the selection object
in insertion order: a `true` value copies a *present* field verbatim, a
nested selection object recurses into a present truthy field (mapping
element-wise over arrays), everything else is skipped.  Data objects are
modelled as prototype-less records (`key in item` is own-key membership),
and the `TypeError` that JS throws when `in` is applied to a primitive is
modelled by `none`. -/

/-- A JSON-like data value (the in-memory records the projector runs on). -/
inductive Json where
  | null : Json
  | bool : Bool → Json
  | num : Int → Json
  | str : String → Json
  | arr : List Json → Json
  | obj : List (String × Json) → Json

/-- A `FieldSelection` entry value: `boolean | FieldSelection`. -/
inductive Sel where
  | bool : Bool → Sel
  | tree : List (String × Sel) → Sel

/-- JS truthiness of a data value. -/
def jsonTruthy : Json → Bool
  | Json.null => false
  | Json.bool b => b
  | Json.num n => n != 0
  | Json.str s => !(s == "")
  | Json.arr _ => true
  | Json.obj _ => true

mutual

/-- Model of `selectFields(item, selection)`. -/
def selectFields (item : Json) (sel : List (String × Sel)) : Option Json :=
  match item with
  | Json.obj fs => (selGo fs sel []).map Json.obj
  | _ => if sel.isEmpty then some (Json.obj []) else none
termination_by (sizeOf sel, sizeOf item)
decreasing_by
  all_goals simp_wf
  all_goals first
    | (apply Prod.Lex.left; omega)
    | (apply Prod.Lex.right' <;> omega)

/-- The `for (const [key, value] of Object.entries(selection))` loop of
`selectFields`, accumulating the result record. -/
def selGo (fs : List (String × Json)) (sel : List (String × Sel))
    (acc : List (String × Json)) : Option (List (String × Json)) :=
  match sel with
  | [] => some acc
  | (k, v) :: rest =>
    match objGet fs k with
    | none => selGo fs rest acc
    | some jv =>
      match v with
      | Sel.bool true => selGo fs rest (objSet acc k jv)
      | Sel.bool false => selGo fs rest acc
      | Sel.tree sub =>
        if jsonTruthy jv then
          match jv with
          | Json.arr xs =>
            match selMap xs sub with
            | some ys => selGo fs rest (objSet acc k (Json.arr ys))
            | none => none
          | _ =>
            match selectFields jv sub with
            | some r => selGo fs rest (objSet acc k r)
            | none => none
        else selGo fs rest acc
termination_by (sizeOf sel, sizeOf fs)
decreasing_by
  all_goals simp_wf
  all_goals apply Prod.Lex.left
  all_goals omega

/-- The `map(subItem => selectFields(subItem, value))` branch for array
fields. -/
def selMap (xs : List Json) (sub : List (String × Sel)) : Option (List Json) :=
  match xs with
  | [] => some []
  | x :: rest =>
    match selectFields x sub with
    | none => none
    | some r =>
      match selMap rest sub with
      | some rs => some (r :: rs)
      | none => none
termination_by (sizeOf sub, sizeOf xs)
decreasing_by
  all_goals simp_wf
  all_goals first
    | (apply Prod.Lex.left; omega)
    | (apply Prod.Lex.right' <;> omega)

end

/-- Model of `processFieldSelection(data, selection)`: element-wise projection. -/
def processFieldSelection (data : List Json) (sel : List (String × Sel)) :
    Option (List Json) :=
  selMap data sel

/-! ## Record-map lemmas -/

theorem objGet_objSet_self {V : Type} (m : List (String × V)) (k : String) (v : V) :
    objGet (objSet m k v) k = some v := by
  unfold objSet objGet
  by_cases h : m.any (fun p => p.1 == k) = true
  · rw [if_pos h]
    induction m with
    | nil => simp at h
    | cons hd tl ih =>
      simp only [List.map_cons]
      by_cases hk : (hd.1 == k) = true
      · rw [if_pos hk,
          List.find?_cons_of_pos (p := fun p => p.1 == k) (a := ((k, v) : String × V)) _ (by simp)]
        rfl
      · rw [if_neg hk, List.find?_cons_of_neg (p := fun p => p.1 == k) (a := hd) _ hk]
        simp only [List.any_cons, Bool.or_eq_true] at h
        rcases h with h | h
        · exact absurd h hk
        · exact ih h
  · rw [if_neg h]
    induction m with
    | nil =>
      rw [List.nil_append,
        List.find?_cons_of_pos (p := fun p => p.1 == k) (a := ((k, v) : String × V)) _ (by simp)]
      rfl
    | cons hd tl ih =>
      simp only [List.any_cons, Bool.or_eq_true, not_or] at h
      rw [List.cons_append, List.find?_cons_of_neg (p := fun p => p.1 == k) (a := hd) _ h.1]
      exact ih h.2

theorem objGet_objSet_ne {V : Type} (m : List (String × V)) (k k' : String) (v : V)
    (hne : k' ≠ k) : objGet (objSet m k' v) k = objGet m k := by
  unfold objSet objGet
  by_cases h : m.any (fun p => p.1 == k') = true
  · rw [if_pos h]
    clear h
    induction m with
    | nil => rfl
    | cons hd tl ih =>
      simp only [List.map_cons]
      by_cases hk : (hd.1 == k') = true
      · have hdk : ¬ (hd.1 == k) = true := by
          have h1 : hd.1 = k' := by simpa using hk
          simp [h1, hne]
        rw [if_pos hk,
          List.find?_cons_of_neg (p := fun p => p.1 == k) (a := ((k', v) : String × V)) _
            (by simp [hne]),
          List.find?_cons_of_neg (p := fun p => p.1 == k) (a := hd) _ hdk]
        exact ih
      · rw [if_neg hk]
        by_cases h2 : (hd.1 == k) = true
        · rw [List.find?_cons_of_pos (p := fun p => p.1 == k) (a := hd) _ h2,
            List.find?_cons_of_pos (p := fun p => p.1 == k) (a := hd) _ h2]
        · rw [List.find?_cons_of_neg (p := fun p => p.1 == k) (a := hd) _ h2,
            List.find?_cons_of_neg (p := fun p => p.1 == k) (a := hd) _ h2]
          exact ih
  · rw [if_neg h]
    clear h
    induction m with
    | nil =>
      rw [List.nil_append,
        List.find?_cons_of_neg (p := fun p => p.1 == k) (a := ((k', v) : String × V)) _
          (by simp [hne])]
    | cons hd tl ih =>
      by_cases h2 : (hd.1 == k) = true
      · rw [List.cons_append, List.find?_cons_of_pos (p := fun p => p.1 == k) (a := hd) _ h2,
          List.find?_cons_of_pos (p := fun p => p.1 == k) (a := hd) _ h2]
      · rw [List.cons_append, List.find?_cons_of_neg (p := fun p => p.1 == k) (a := hd) _ h2,
          List.find?_cons_of_neg (p := fun p => p.1 == k) (a := hd) _ h2]
        exact ih

/-- A string extended by a suffix that is not a suffix of `u` differs from `u`. -/
theorem append_ne_of_not_sfx (f t u : String) (h : ¬ t.data <:+ u.data) :
    f ++ t ≠ u := by
  intro heq
  apply h
  rw [← heq, String.data_append]
  exact List.suffix_append _ _

/-- Appending different suffixes to the same string yields different strings. -/
theorem append_right_ne (f t u : String) (h : t ≠ u) : f ++ t ≠ f ++ u := by
  intro heq
  apply h
  have hd := congrArg String.data heq
  rw [String.data_append, String.data_append] at hd
  exact String.ext (List.append_cancel_left hd)

/-- Keys other than `sortBy`, `sortOrder`, `pageSize`, `offset` are
untouched by the ordering/pagination steps of `build()`: their final value
comes from the condition fold alone. -/
theorem objGet_build (tn : String) (conds : List QueryCondition) (lim off : Option Int)
    (ob : List (String × String)) (gb : List String) (k : String)
    (h1 : k ≠ "sortBy") (h2 : k ≠ "sortOrder") (h3 : k ≠ "pageSize") (h4 : k ≠ "offset") :
    objGet (QueryBuilder.build ⟨tn, conds, ⟨lim, off, ob, gb⟩⟩) k =
      objGet (conds.foldl applyCondition []) k := by
  rcases lim with _ | l <;> rcases off with _ | o <;> rcases ob with _ | ⟨⟨f, d⟩, rest⟩ <;>
    simp only [QueryBuilder.build] <;> (try split_ifs) <;>
    simp [objGet_objSet_ne, Ne.symm h1, Ne.symm h2, Ne.symm h3, Ne.symm h4]

/-- Claim C3: with several `orderBy` calls, `build()` takes `sortBy` and
`sortOrder` from the first ordering entry only; the flat map is identical
to the one produced when only the first entry exists, so no parameter
derived from a later `orderBy` entry can appear. -/
theorem claim_C3_orderBy_first_entry_only (tn : String) (conds : List QueryCondition)
    (lim off : Option Int) (gb : List String) (e : String × String)
    (rest : List (String × String)) :
    QueryBuilder.build ⟨tn, conds, ⟨lim, off, e :: rest, gb⟩⟩ =
      QueryBuilder.build ⟨tn, conds, ⟨lim, off, [e], gb⟩⟩ ∧
    objGet (QueryBuilder.build ⟨tn, conds, ⟨lim, off, e :: rest, gb⟩⟩) "sortBy" =
      some (Value.vStr e.1) ∧
    objGet (QueryBuilder.build ⟨tn, conds, ⟨lim, off, e :: rest, gb⟩⟩) "sortOrder" =
      some (Value.vStr e.2) := by
  obtain ⟨f, d⟩ := e
  refine ⟨rfl, ?_, ?_⟩ <;>
    rcases lim with _ | l <;> rcases off with _ | o <;>
    simp only [QueryBuilder.build] <;> (try split_ifs) <;>
    simp [objGet_objSet_ne, objGet_objSet_self]

/-- Claim C4: a trailing `BETWEEN` condition on field `f` makes `build()`
emit both `f_gte = value` and `f_lte = value2`; a trailing `NOT BETWEEN`
emits both `f_lt = value` and `f_gt = value2`. -/
theorem claim_C4_between_emits_both_bounds (tn : String) (cs : List QueryCondition)
    (lim off : Option Int) (ob : List (String × String)) (gb : List String)
    (f : String) (v v2 : Value) :
    (objGet (QueryBuilder.build ⟨tn, cs ++ [⟨f, "BETWEEN", v, some v2⟩], ⟨lim, off, ob, gb⟩⟩)
        (f ++ "_gte") = some v ∧
     objGet (QueryBuilder.build ⟨tn, cs ++ [⟨f, "BETWEEN", v, some v2⟩], ⟨lim, off, ob, gb⟩⟩)
        (f ++ "_lte") = some v2) ∧
    (objGet (QueryBuilder.build ⟨tn, cs ++ [⟨f, "NOT BETWEEN", v, some v2⟩], ⟨lim, off, ob, gb⟩⟩)
        (f ++ "_lt") = some v ∧
     objGet (QueryBuilder.build ⟨tn, cs ++ [⟨f, "NOT BETWEEN", v, some v2⟩], ⟨lim, off, ob, gb⟩⟩)
        (f ++ "_gt") = some v2) := by
  refine ⟨⟨?_, ?_⟩, ⟨?_, ?_⟩⟩ <;>
    rw [objGet_build _ _ _ _ _ _ _
      (append_ne_of_not_sfx _ _ _ (by decide)) (append_ne_of_not_sfx _ _ _ (by decide))
      (append_ne_of_not_sfx _ _ _ (by decide)) (append_ne_of_not_sfx _ _ _ (by decide))] <;>
    simp only [List.foldl_append, List.foldl_cons, List.foldl_nil]
  · rw [show ∀ m : Obj, applyCondition m ⟨f, "BETWEEN", v, some v2⟩ =
        objSet (objSet m (f ++ "_gte") v) (f ++ "_lte") v2 from fun m => rfl,
      objGet_objSet_ne _ _ _ _ (append_right_ne f "_lte" "_gte" (by decide)),
      objGet_objSet_self]
  · rw [show ∀ m : Obj, applyCondition m ⟨f, "BETWEEN", v, some v2⟩ =
        objSet (objSet m (f ++ "_gte") v) (f ++ "_lte") v2 from fun m => rfl,
      objGet_objSet_self]
  · rw [show ∀ m : Obj, applyCondition m ⟨f, "NOT BETWEEN", v, some v2⟩ =
        objSet (objSet m (f ++ "_lt") v) (f ++ "_gt") v2 from fun m => rfl,
      objGet_objSet_ne _ _ _ _ (append_right_ne f "_gt" "_lt" (by decide)),
      objGet_objSet_self]
  · rw [show ∀ m : Obj, applyCondition m ⟨f, "NOT BETWEEN", v, some v2⟩ =
        objSet (objSet m (f ++ "_lt") v) (f ++ "_gt") v2 from fun m => rfl,
      objGet_objSet_self]

/-- Claim C4 witness: evaluated on a one-condition builder for
`dueDate BETWEEN 1 AND 9`. -/
theorem claim_C4_witness :
    objGet (QueryBuilder.build ⟨"tasks", [⟨"dueDate", "BETWEEN", Value.vNum 1,
        some (Value.vNum 9)⟩], ⟨none, none, [], []⟩⟩) "dueDate_gte" = some (Value.vNum 1) ∧
    objGet (QueryBuilder.build ⟨"tasks", [⟨"dueDate", "BETWEEN", Value.vNum 1,
        some (Value.vNum 9)⟩], ⟨none, none, [], []⟩⟩) "dueDate_lte" = some (Value.vNum 9) :=
  (claim_C4_between_emits_both_bounds "tasks" [] none none [] []
    "dueDate" (Value.vNum 1) (Value.vNum 9)).1

/-- Claim C5: two `=`-conditions on the same field: the later-appended one
wins in the flat map, with no error. -/
theorem claim_C5_last_write_wins (tn : String) (cs ds : List QueryCondition)
    (lim off : Option Int) (ob : List (String × String)) (gb : List String)
    (f : String) (v1 v2 : Value)
    (h1 : f ≠ "sortBy") (h2 : f ≠ "sortOrder") (h3 : f ≠ "pageSize") (h4 : f ≠ "offset") :
    objGet (QueryBuilder.build
      ⟨tn, (cs ++ [⟨f, "=", v1, none⟩]) ++ ds ++ [⟨f, "=", v2, none⟩], ⟨lim, off, ob, gb⟩⟩) f =
      some v2 := by
  rw [objGet_build _ _ _ _ _ _ _ h1 h2 h3 h4]
  simp only [List.foldl_append, List.foldl_cons, List.foldl_nil]
  rw [show ∀ m : Obj, applyCondition m ⟨f, "=", v2, none⟩ = objSet m f v2 from fun m => rfl,
    objGet_objSet_self]

/-- Claim C5 witness: `whereEquals('status','active')` then
`whereEquals('status','done')` yields `status = 'done'`. -/
theorem claim_C5_witness :
    objGet (QueryBuilder.build
      (((QueryBuilder.create "tasks").whereEquals "status" (Value.vStr "active")).whereEquals
        "status" (Value.vStr "done"))) "status" = some (Value.vStr "done") :=
  claim_C5_last_write_wins "tasks" [] [] none none [] [] "status"
    (Value.vStr "active") (Value.vStr "done")
    (by decide) (by decide) (by decide) (by decide)

/-- Claim C10: a `NOT CONTAINS` condition is accepted, rendered in the
diagnostic SQL fragment, but dropped by the parameter translation: the
flat map is the same as without the condition, and no error occurs. -/
theorem claim_C10_not_contains_dropped (b : QueryBuilder) (f : String) (v : Value) :
    (b.whereNotContains f v).build = b.build ∧
    conditionToSQL ⟨f, "NOT CONTAINS", v, none⟩ =
      f ++ " NOT CONTAINS " ++ formatValue v := by
  constructor
  · unfold QueryBuilder.whereNotContains QueryBuilder.whereCond QueryBuilder.build
    simp only [List.foldl_append, List.foldl_cons, List.foldl_nil]
    rw [show ∀ m : Obj, applyCondition m ⟨f, "NOT CONTAINS", v, none⟩ = m from fun m => rfl]
  · rfl

/-- Claim C6: a page with `hasMore = false` is terminal: both single
next-page fetchers return `null` and the fetch primitive is not invoked
(the result is `none` for *every* fetch primitive, and the call count is
zero); no error is raised. -/
theorem claim_C6_exhausted_is_terminal {T : Type} (page : Page T) (fetch : Fetch T)
    (h : page.pagination.hasMore = false) :
    getNextPageInternal page fetch = none ∧ getNextPage page fetch = none ∧
    getNextPageFetchCount page = 0 := by
  unfold getNextPageInternal getNextPage getNextPageFetchCount
  simp [h]

/-- Claim C6 witness: an exhausted page (even one still carrying a token)
yields `null` with zero fetches. -/
theorem claim_C6_witness :
    getNextPageInternal (⟨[1], ⟨false, some "t"⟩⟩ : Page Nat)
      (fun _ => ⟨[2], ⟨false, none⟩⟩) = none ∧
    getNextPage (⟨[1], ⟨false, some "t"⟩⟩ : Page Nat)
      (fun _ => ⟨[2], ⟨false, none⟩⟩) = none ∧
    getNextPageFetchCount (⟨[1], ⟨false, some "t"⟩⟩ : Page Nat) = 0 :=
  claim_C6_exhausted_is_terminal ⟨[1], ⟨false, some "t"⟩⟩ (fun _ => ⟨[2], ⟨false, none⟩⟩) rfl

/-- The cap-bounded fetch-all loop on an inexhaustible fetch primitive:
each round consumes exactly one fetch until the cap stops it. -/
theorem getAllPagesGo_inexhaustible {T : Type} (fetch : Fetch T)
    (h : ∀ tok, (fetch tok).pagination.hasMore = true ∧
      tokenPresent (fetch tok).pagination.nextPageToken = true) :
    ∀ (n pc : Nat) (tok : Option String),
      getAllPagesGo fetch (pc + n) pc tok = ((pageTrace fetch n tok).map Page.data).flatten ∧
      getAllPagesCalls fetch (pc + n) pc tok = n := by
  intro n
  induction n with
  | zero =>
    intro pc tok
    unfold getAllPagesGo getAllPagesCalls
    simp [pageTrace]
  | succ k ih =>
    intro pc tok
    have hw : wantsMore (fetch tok) = true := by
      unfold wantsMore
      rw [(h tok).1, (h tok).2]
      rfl
    have hle : ¬ (pc + (k + 1) ≤ pc) := by omega
    have harith : pc + (k + 1) = (pc + 1) + k := by omega
    unfold getAllPagesGo getAllPagesCalls
    rw [dif_neg hle, dif_neg hle]
    simp only [hw, if_true]
    have hrec := ih (pc + 1) (fetch tok).pagination.nextPageToken
    rw [harith] at *
    refine ⟨?_, ?_⟩
    · rw [hrec.1]
      simp [pageTrace]
    · rw [hrec.2]
      omega

/-- Claim C2: a fetch primitive that always reports `hasMore` with a token
drives eager fetch-all into the safety cap: the loop performs exactly
`cap` fetches, returns the concatenation of exactly the first `cap`
pages' items, and terminates; the default cap is 50 pages. -/
theorem claim_C2_safety_cap {T : Type} (fetch : Fetch T) (cap : Nat)
    (h : ∀ tok, (fetch tok).pagination.hasMore = true ∧
      tokenPresent (fetch tok).pagination.nextPageToken = true) :
    getAllPages fetch cap = ((pageTrace fetch cap none).map Page.data).flatten ∧
    getAllPagesCalls fetch cap 0 none = cap ∧
    (∀ g : Fetch T, getAllPages g = getAllPagesGo g 50 0 none) := by
  have := getAllPagesGo_inexhaustible fetch h cap 0 none
  rw [Nat.zero_add] at this
  exact ⟨this.1, this.2, fun g => rfl⟩

/-- An inexhaustible single-page fetch primitive used to witness the cap. -/
def capFetch : Fetch Nat := fun _ => ⟨[0], ⟨true, some "t"⟩⟩

/-- Claim C2 witness: at the default cap of 50, fetch-all stops with 50
pages' items (here 50 copies of the single item) after 50 calls. -/
theorem claim_C2_witness :
    getAllPages capFetch 50 = List.replicate 50 0 ∧
    getAllPagesCalls capFetch 50 0 none = 50 :=
  have hmain := claim_C2_safety_cap capFetch 50 (fun _ => ⟨rfl, rfl⟩)
  ⟨hmain.1.trans (by decide), hmain.2.1⟩

/-- The lazy page generator on a chain whose pages continue up to index
`k` and stop there reproduces exactly that chain, for any sufficient
fuel. -/
theorem iteratePagesGo_chain {T : Type} (fetch : Fetch T) :
    ∀ (k : Nat) (tok : Option String),
      (∀ i, i + 1 < k + 1 →
        wantsMore ((pageTrace fetch (k + 1) tok).getD i ⟨[], ⟨false, none⟩⟩) = true) →
      wantsMore ((pageTrace fetch (k + 1) tok).getD k ⟨[], ⟨false, none⟩⟩) = false →
      ∀ fuel, k + 1 ≤ fuel → iteratePagesGo fetch fuel tok = pageTrace fetch (k + 1) tok := by
  intro k
  induction k with
  | zero =>
    intro tok h1 h2 fuel hf
    obtain ⟨m, rfl⟩ : ∃ m, fuel = m + 1 := ⟨fuel - 1, by omega⟩
    have h2' : wantsMore (fetch tok) = false := by
      simpa [pageTrace] using h2
    simp [iteratePagesGo, h2', pageTrace]
  | succ k ih =>
    intro tok h1 h2 fuel hf
    obtain ⟨m, rfl⟩ : ∃ m, fuel = m + 1 := ⟨fuel - 1, by omega⟩
    have h0 : wantsMore (fetch tok) = true := by
      have := h1 0 (by omega)
      simpa [pageTrace] using this
    have step : iteratePagesGo fetch (m + 1) tok =
        fetch tok :: iteratePagesGo fetch m (fetch tok).pagination.nextPageToken := by
      simp [iteratePagesGo, h0]
    have trstep : pageTrace fetch (k + 1 + 1) tok =
        fetch tok :: pageTrace fetch (k + 1) (fetch tok).pagination.nextPageToken := rfl
    rw [step, trstep]
    congr 1
    refine ih (fetch tok).pagination.nextPageToken ?_ ?_ m (by omega)
    · intro i hi
      have := h1 (i + 1) (by omega)
      rw [trstep, List.getD_cons_succ] at this
      exact this
    · rw [trstep, List.getD_cons_succ] at h2
      exact h2

/-- Claim C7: over a finite chain of `k+1` pages whose last page has
`hasMore = false`, the lazy item sequence yields exactly the items of
those pages, page by page and in within-page order, and its length is the
sum of the page sizes — for any fuel at least the page count. -/
theorem claim_C7_iterateItems_complete {T : Type} (fetch : Fetch T) (k : Nat)
    (h1 : ∀ i, i + 1 < k + 1 →
      wantsMore ((pageTrace fetch (k + 1) none).getD i ⟨[], ⟨false, none⟩⟩) = true)
    (h2 : ((pageTrace fetch (k + 1) none).getD k ⟨[], ⟨false, none⟩⟩).pagination.hasMore
      = false) :
    ∀ fuel, k + 1 ≤ fuel →
      iterateItems fetch fuel = ((pageTrace fetch (k + 1) none).map Page.data).flatten ∧
      (iterateItems fetch fuel).length =
        ((pageTrace fetch (k + 1) none).map (fun p => p.data.length)).sum := by
  intro fuel hf
  have h2' : wantsMore ((pageTrace fetch (k + 1) none).getD k ⟨[], ⟨false, none⟩⟩) = false := by
    unfold wantsMore
    rw [h2]
    rfl
  have hpages := iteratePagesGo_chain fetch k none h1 h2' fuel hf
  unfold iterateItems
  rw [hpages]
  refine ⟨rfl, ?_⟩
  rw [List.length_flatten]
  simp [Function.comp_def]

/-- The three-page chain (sizes 2, 3, 1) used to witness the lazy item
sequence. -/
def chainFetch : Fetch Nat := fun tok =>
  match tok with
  | none => ⟨[1, 2], ⟨true, some "a"⟩⟩
  | some "a" => ⟨[3, 4, 5], ⟨true, some "b"⟩⟩
  | some "b" => ⟨[6], ⟨false, none⟩⟩
  | some _ => ⟨[], ⟨false, none⟩⟩

/-- Claim C7 witness: 3 pages of sizes [2,3,1] yield exactly the 6 items in
page-then-index order. -/
theorem claim_C7_witness :
    iterateItems chainFetch 3 = [1, 2, 3, 4, 5, 6] ∧
    (iterateItems chainFetch 3).length = 6 :=
  have hmain := claim_C7_iterateItems_complete chainFetch 2
    (by
      intro i hi
      match i, hi with
      | 0, _ => rfl
      | 1, _ => rfl) rfl 3 (by omega)
  ⟨hmain.1.trans (by decide), by rw [hmain.1]; decide⟩

/-- Claim C8: the template ``sql`SELECT * FROM tasks WHERE projectId = ${5}
LIMIT 10` `` produces the query text with `$1` substituted and the
parameter list `[5]`, and parsing extracts table name `"tasks"` and limit
`10`. -/
theorem claim_C8_sql_template_example :
    (sqlTag ["SELECT * FROM tasks WHERE projectId = ", " LIMIT 10"] [Value.vNum 5]).1 =
      "SELECT * FROM tasks WHERE projectId = $1 LIMIT 10" ∧
    (sqlTag ["SELECT * FROM tasks WHERE projectId = ", " LIMIT 10"] [Value.vNum 5]).2 =
      [Value.vNum 5] ∧
    (parseSQLQuery "SELECT * FROM tasks WHERE projectId = $1 LIMIT 10"
        [Value.vNum 5]).tableName = "tasks" ∧
    (parseSQLQuery "SELECT * FROM tasks WHERE projectId = $1 LIMIT 10"
        [Value.vNum 5]).limit = some 10 ∧
    (parseSQLQuery "SELECT * FROM tasks WHERE projectId = $1 LIMIT 10"
        [Value.vNum 5]).condParams = [Value.vNum 5] :=
  ⟨rfl, rfl, rfl, rfl, rfl⟩

/-- Claim C1: evaluation of the SQL-template translation at the query
`SELECT * FROM tasks WHERE projectId = $1 LIMIT 10` with positional
parameters `[5]`.  `parseSQLQuery` stores the WHERE text *uppercased*
(`"PROJECTID = $1"`), so the case-sensitive `includes('projectId')` probe
in `convertSQLToAPIParams` — like the `'status'`, `'assignees'` and
`'dueDate'` probes — can never fire, and the translator emits no
`projectId` flat parameter at all: the entire output is
`{pageSize: 10}`. -/
theorem claim_C1_field_probes_never_fire :
    (parseSQLQuery "SELECT * FROM tasks WHERE projectId = $1 LIMIT 10"
        [Value.vNum 5]).conditionsRaw = "PROJECTID = $1" ∧
    hasSub (parseSQLQuery "SELECT * FROM tasks WHERE projectId = $1 LIMIT 10"
        [Value.vNum 5]).conditionsRaw.data "projectId".data = false ∧
    objGet (convertSQLToAPIParams
        (parseSQLQuery "SELECT * FROM tasks WHERE projectId = $1 LIMIT 10" [Value.vNum 5])
        [Value.vNum 5]) "projectId" = none ∧
    convertSQLToAPIParams
        (parseSQLQuery "SELECT * FROM tasks WHERE projectId = $1 LIMIT 10" [Value.vNum 5])
        [Value.vNum 5] = [("pageSize", Value.vNum 10)] :=
  ⟨rfl, rfl, rfl, rfl⟩

/-- Every key of `objSet acc k v` is `k` or a key of `acc`. -/
theorem keys_objSet {V : Type} (acc : List (String × V)) (k : String) (v : V) :
    ∀ x ∈ (objSet acc k v).map Prod.fst, x = k ∨ x ∈ acc.map Prod.fst := by
  intro x hx
  unfold objSet at hx
  by_cases h : acc.any (fun q => q.1 == k) = true
  · rw [if_pos h, List.map_map] at hx
    rcases List.mem_map.mp hx with ⟨q, hq, hfx⟩
    by_cases hqk : (q.1 == k) = true
    · left
      simp only [Function.comp_apply, if_pos hqk] at hfx
      exact hfx ▸ rfl
    · right
      simp only [Function.comp_apply, if_neg hqk] at hfx
      exact hfx ▸ List.mem_map_of_mem _ hq
  · rw [if_neg h, List.map_append] at hx
    rcases List.mem_append.mp hx with hin | hin
    · right
      exact hin
    · left
      simpa using hin

/-- The projection loop only ever accumulates keys named in the
selection: every key of a successful result comes from the accumulator or
from the selection entries. -/
theorem selGo_keys :
    ∀ (sel : List (String × Sel)) (fs acc rs : List (String × Json)),
      selGo fs sel acc = some rs →
      ∀ p ∈ rs, p.1 ∈ acc.map Prod.fst ∨ p.1 ∈ sel.map Prod.fst := by
  intro sel
  induction sel with
  | nil =>
    intro fs acc rs h p hp
    unfold selGo at h
    cases h
    exact Or.inl (List.mem_map_of_mem _ hp)
  | cons e rest ih =>
    intro fs acc rs h p hp
    obtain ⟨k, v⟩ := e
    unfold selGo at h
    repeat' split at h
    all_goals try exact Option.noConfusion h
    all_goals
      rcases ih _ _ _ h p hp with hin | hin
    all_goals try exact Or.inr (by simp only [List.map_cons]; exact List.mem_cons_of_mem _ hin)
    all_goals try exact Or.inl hin
    all_goals
      rcases keys_objSet _ _ _ p.1 hin with heq | hin2
    all_goals first
      | exact Or.inl hin2
      | exact Or.inr (by simp [heq])

/-- Claim C9: the field-selection projector is a strict whitelist: a
successful projection is an object whose keys all come from the selection
tree; a `true` leaf copies a present field verbatim and omits an absent
one; a nested tree recurses into a present object field, maps
element-wise over a present array field, and omits an absent field; on
the concrete tree `{taskName: true, project: {projectName: true}}` only
`taskName` and `project.projectName` survive. -/
theorem claim_C9_projector_whitelist :
    (∀ (item : Json) (sel : List (String × Sel)) (out : Json),
        selectFields item sel = some out →
        ∃ rs, out = Json.obj rs ∧ ∀ p ∈ rs, p.1 ∈ sel.map Prod.fst) ∧
    (∀ (fs : List (String × Json)) (k : String) (jv : Json),
        objGet fs k = some jv →
        selectFields (Json.obj fs) [(k, Sel.bool true)] = some (Json.obj [(k, jv)])) ∧
    (∀ (fs : List (String × Json)) (k : String),
        objGet fs k = none →
        selectFields (Json.obj fs) [(k, Sel.bool true)] = some (Json.obj [])) ∧
    (∀ (fs : List (String × Json)) (k : String) (gs : List (String × Json))
        (sub : List (String × Sel)),
        objGet fs k = some (Json.obj gs) →
        selectFields (Json.obj fs) [(k, Sel.tree sub)] =
          (selectFields (Json.obj gs) sub).map (fun r => Json.obj [(k, r)])) ∧
    (∀ (fs : List (String × Json)) (k : String) (xs : List Json)
        (sub : List (String × Sel)),
        objGet fs k = some (Json.arr xs) →
        selectFields (Json.obj fs) [(k, Sel.tree sub)] =
          (selMap xs sub).map (fun ys => Json.obj [(k, Json.arr ys)])) ∧
    (∀ (fs : List (String × Json)) (k : String) (sub : List (String × Sel)),
        objGet fs k = none →
        selectFields (Json.obj fs) [(k, Sel.tree sub)] = some (Json.obj [])) ∧
    selectFields
      (Json.obj [("taskId", Json.num 7), ("taskName", Json.str "T"),
        ("project", Json.obj [("projectId", Json.num 9), ("projectName", Json.str "P")]),
        ("extra", Json.str "x")])
      [("taskName", Sel.bool true), ("project", Sel.tree [("projectName", Sel.bool true)])] =
      some (Json.obj [("taskName", Json.str "T"),
        ("project", Json.obj [("projectName", Json.str "P")])]) := by
  refine ⟨?_, ?_, ?_, ?_, ?_, ?_, ?_⟩
  · intro item sel out h
    cases item
    case obj fs =>
      unfold selectFields at h
      rcases hsel : selGo fs sel [] with _ | rs <;> rw [hsel] at h
      · exact Option.noConfusion h
      · refine ⟨rs, by injection h with h2; exact h2.symm, ?_⟩
        intro p hp
        rcases selGo_keys sel fs [] rs hsel p hp with hin | hin
        · simp at hin
        · exact hin
    all_goals unfold selectFields at h
    all_goals split at h
    all_goals try exact Option.noConfusion h
    all_goals refine ⟨[], by injection h with h2; exact h2.symm, ?_⟩
    all_goals intro p hp
    all_goals simp at hp
  · intro fs k jv h
    simp [selectFields, selGo, h, objSet]
  · intro fs k h
    simp [selectFields, selGo, h]
  · intro fs k gs sub h
    rcases hsub : selGo gs sub [] with _ | r <;>
      simp [selectFields, selGo, h, hsub, jsonTruthy, objSet]
  · intro fs k xs sub h
    rcases hsub : selMap xs sub with _ | ys <;>
      simp [selectFields, selGo, h, hsub, jsonTruthy, objSet]
  · intro fs k sub h
    simp [selectFields, selGo, h]
  · simp [selectFields, selGo, selMap, objGet, objSet, jsonTruthy]

/-- Claim C9 witness: the whitelist property applied to the concrete
projection of the sample task object. -/
theorem claim_C9_witness :
    ∃ rs, (Json.obj [("taskName", Json.str "T"),
        ("project", Json.obj [("projectName", Json.str "P")])]) = Json.obj rs ∧
      ∀ p ∈ rs, p.1 ∈ ([("taskName", Sel.bool true),
        ("project", Sel.tree [("projectName", Sel.bool true)])].map Prod.fst) :=
  claim_C9_projector_whitelist.1 _ _ _ claim_C9_projector_whitelist.2.2.2.2.2.2

end Rocketlane
